import Mathlib

/- Shallow embedding of src/run.py (class LatexConverter): the document to
LaTeX conversion pipeline. Strings are modelled as Lean String / List Char;
Python exceptions are modelled with Except String; file reads and the
external extraction libraries (python-docx, pdfplumber) are modelled as the
data they yield, wrapped in Except for a possible read failure. -/

namespace Run

/-- Python truthiness of an optional string (None and "" are falsy). -/
def pyTruthy : Option String → Bool
  | none => false
  | some s => !(s == "")

/-- Whitespace recognised by Python 3's str-mode regex class \s, by
str.isspace and by str.strip (all three coincide in CPython): the ASCII
whitespace 09-0D and 20, the C1 separators 1C-1F, NEL 85, NBSP A0, and the
Unicode space characters 1680, 2000-200A, 2028, 2029, 202F, 205F, 3000. -/
def isPySpace (c : Char) : Bool :=
  c == ' ' || c == '\t' || c == '\n' || c == '\r' || c == '\x0b' || c == '\x0c' ||
  (0x1c ≤ c.toNat && c.toNat ≤ 0x1f) || c.toNat == 0x85 || c.toNat == 0xa0 ||
  c.toNat == 0x1680 || (0x2000 ≤ c.toNat && c.toNat ≤ 0x200a) ||
  c.toNat == 0x2028 || c.toNat == 0x2029 || c.toNat == 0x202f ||
  c.toNat == 0x205f || c.toNat == 0x3000

/-- Build a string from a character list. -/
def ofList (l : List Char) : String := ⟨l⟩

/-- Python str.strip on a character list: drop whitespace at both ends. -/
def stripL (l : List Char) : List Char :=
  ((l.dropWhile isPySpace).reverse.dropWhile isPySpace).reverse

/-- Python str.strip. -/
def pyStrip (s : String) : String := ofList (stripL s.toList)

/-- Python str.lower (ASCII). -/
def pyLower (s : String) : String := ofList (s.toList.map Char.toLower)

/-- Whether pat occurs as a contiguous sublist (Python `in` on str). -/
def containsList (pat : List Char) : List Char → Bool
  | [] => List.isPrefixOf pat []
  | c :: cs => List.isPrefixOf pat (c :: cs) || containsList pat cs

/-- Whether pat occurs as a substring of hay (Python `in` on str). -/
def containsSub (hay pat : String) : Bool := containsList pat.toList hay.toList

/-- Python sep.join on a list of strings. -/
def joinSep (sep : String) : List String → String
  | [] => ""
  | [s] => s
  | s :: t :: rest => s ++ sep ++ joinSep sep (t :: rest)

/-- Split a character list at every occurrence of the character sep
(Python str.split(sep) semantics: n separators give n+1 pieces). -/
def splitOnC (sep : Char) : List Char → List (List Char)
  | [] => [[]]
  | c :: cs =>
    match splitOnC sep cs with
    | [] => [[c]]
    | h :: t => if c = sep then [] :: h :: t else (c :: h) :: t

/-- Join character-list lines with a separator character (inverse of splitOnC). -/
def joinC (sep : Char) : List (List Char) → List Char
  | [] => []
  | [l] => l
  | l :: m :: rest => l ++ sep :: joinC sep (m :: rest)

/-- os.path.basename for POSIX paths: the part after the last slash. -/
def basename (p : String) : String :=
  ofList ((splitOnC '/' p.toList).getLastD [])

/-- The extension part of os.path.splitext: from the last dot of the
basename, with the basename's leading dots not counted as a separator. -/
def extOf (p : String) : String :=
  let b := (splitOnC '/' p.toList).getLastD []
  let rest := b.dropWhile (· = '.')
  let (extRev, restRev) := rest.reverse.span (· ≠ '.')
  match restRev with
  | [] => ""
  | _ :: _ => ofList ('.' :: extRev.reverse)

-- ==========================
-- Escaper (_escape_latex)
-- ==========================

/-- The characters of the substitution table in _escape_latex. -/
def isSpecial (c : Char) : Bool :=
  c == '&' || c == '%' || c == '$' || c == '#' || c == '_' ||
  c == '\x7b' || c == '\x7d' || c == '~' || c == '^' || c == '\\'

/-- The replacement each character receives under the regex substitution of
_escape_latex: a special character maps to its escape sequence from the
chars table, any other character to itself. -/
def escCharL (c : Char) : List Char :=
  if c = '&' then "\\&".toList
  else if c = '%' then "\\%".toList
  else if c = '$' then "\\$".toList
  else if c = '#' then "\\#".toList
  else if c = '_' then "\\_".toList
  else if c = '\x7b' then "\\\x7b".toList
  else if c = '\x7d' then "\\\x7d".toList
  else if c = '~' then "\\textasciitilde\x7b\x7d".toList
  else if c = '^' then "\\^\x7b\x7d".toList
  else if c = '\\' then "\\textbackslash\x7b\x7d".toList
  else [c]

/-- Escape a character list. The Python code compiles the alternation of the
ten single-character keys and applies one re.sub pass; non-overlapping
single-character matches scanned left to right are exactly a per-character
substitution over the original text. -/
def escapeL (l : List Char) : List Char := (l.map escCharL).flatten

/-- _escape_latex from src/run.py: escapes special LaTeX characters in plain
text (the `if not text: return ""` guard coincides with the map on ""). -/
def _escape_latex (s : String) : String := ofList (escapeL s.toList)

/-- The ten inserted escape sequences, in the order of the chars dict. -/
def escSeqs : List (List Char) :=
  ["\\&".toList, "\\%".toList, "\\$".toList, "\\#".toList, "\\_".toList,
   "\\\x7b".toList, "\\\x7d".toList, "\\textasciitilde\x7b\x7d".toList,
   "\\^\x7b\x7d".toList, "\\textbackslash\x7b\x7d".toList]

/-- Fueled scanner deciding whether a character list parses as a sequence of
tokens, each token either a full inserted escape sequence or a single
non-special character. This is the spec's notion of "no unescaped occurrence
of a special character outside the inserted sequences". -/
def wellEscapedAux : Nat → List Char → Bool
  | _, [] => true
  | 0, _ :: _ => false
  | f + 1, c :: cs =>
    match escSeqs.find? (fun seq => List.isPrefixOf seq (c :: cs)) with
    | some seq => wellEscapedAux f ((c :: cs).drop seq.length)
    | none => if isSpecial c then false else wellEscapedAux f cs

/-- A string is well escaped when it is a concatenation of non-special
characters and whole inserted escape sequences. -/
def wellEscaped (s : String) : Bool := wellEscapedAux s.toList.length s.toList

-- ==========================
-- PreambleBuilder (_get_preamble / _get_postamble)
-- ==========================

/-- The options dict handed to LatexConverter (missing keys are none). -/
structure Options where
  doc_class : Option String
  fontsize : Option String
  margins : Option String
  packages : Option String
  custom_preamble : Option String

/-- The fixed baseline package list of _get_preamble. -/
def basePackages : List String :=
  ["geometry", "graphicx", "hyperref", "amsmath",
   "listings", "xcolor", "booktabs", "float"]

/-- The raw lstset string appended to the preamble (verbatim from the
source, including leading newline and trailing indentation). -/
def lstsetBlock : String :=
  "\n\\lstset\x7b\n    basicstyle=\\ttfamily\\small,\n    breaklines=true,\n    frame=single,\n    backgroundcolor=\\color\x7bgray!10\x7d,\n    keywordstyle=\\color\x7bblue\x7d,\n    commentstyle=\\color\x7bgreen!50!black\x7d,\n    stringstyle=\\color\x7bred\x7d\n\x7d\n            "

/-- The list of preamble lines built by _get_preamble before joining. -/
def preambleLines (input_path : String) (o : Options) : List String :=
  let packages := basePackages ++
    (if pyTruthy o.packages then
       (splitOnC ',' (o.packages.getD "").toList).map ofList
     else [])
  ["\\documentclass[" ++ o.fontsize.getD "12pt" ++ "]\x7b" ++
     o.doc_class.getD "article" ++ "\x7d",
   "\\usepackage[" ++ o.margins.getD "margin=1in" ++ "]\x7bgeometry\x7d"]
  ++ packages.map (fun pkg => "\\usepackage\x7b" ++ pyStrip pkg ++ "\x7d")
  ++ [lstsetBlock]
  ++ (if pyTruthy o.custom_preamble then [o.custom_preamble.getD ""] else [])
  ++ ["\\title\x7b" ++ basename input_path ++ "\x7d",
      "\\author\x7bAuto-Generated\x7d",
      "\\date\x7b\\today\x7d",
      "\\begin\x7bdocument\x7d",
      "\\maketitle"]

/-- _get_preamble from src/run.py. -/
def _get_preamble (input_path : String) (o : Options) : String :=
  joinSep "\n" (preambleLines input_path o)

/-- _get_postamble from src/run.py. -/
def _get_postamble : String := "\n\\end\x7bdocument\x7d"

-- ==========================
-- PDF handling (parse_pdf)
-- ==========================

/-- The reflow step full_text.replace("\n", " "): the pattern is a single
character, so Python str.replace is a per-character map. -/
def reflow (s : String) : String :=
  ofList (s.toList.map (fun c => if c = '\n' then ' ' else c))

/-- The body parse_pdf produces from the per-page extraction results
(page.extract_text() yields None or a string; None and "" are falsy). -/
def pdfBody (pages : List (Option String)) : String :=
  let text_content := pages.foldl
    (fun acc p => match p with
      | some t => if t ≠ "" then acc ++ [_escape_latex t] else acc
      | none => acc) []
  if text_content.isEmpty then "% [WARNING: No text extracted from PDF]"
  else reflow (joinSep "\n\n" text_content)

/-- parse_pdf from src/run.py: the argument is the result of opening the
file and extracting each page's text; an extraction failure is re-raised as
a wrapped error. -/
def parse_pdf (pages : Except String (List (Option String))) :
    Except String String :=
  match pages with
  | .error e => .error ("Error parsing PDF: " ++ e)
  | .ok ps => .ok (pdfBody ps)

-- ==========================
-- TXT handling (parse_txt)
-- ==========================

/-- parse_txt from src/run.py: the argument is the result of reading the
file as text. -/
def parse_txt (read : Except String String) : Except String String :=
  match read with
  | .error e => .error ("Error parsing TXT: " ++ e)
  | .ok t => .ok (_escape_latex t)

-- ==========================
-- DOCX handling
-- ==========================

/-- An inline run of a DOCX paragraph as exposed by python-docx. -/
structure DocxRun where
  text : String
  bold : Bool
  italic : Bool

/-- A top-level block yielded by iter_block_items: a paragraph (style name
plus its runs; para.text is the concatenation of its runs' text) or a table
(len(table.columns) plus the flattened text of each row's cells). -/
inductive DocxBlock where
  | para (style : String) (runs : List DocxRun)
  | table (numCols : Nat) (rows : List (List String))

/-- para.text: python-docx concatenates the text of the runs. -/
def paraText (runs : List DocxRun) : String :=
  joinSep "" (runs.map DocxRun.text)

/-- The styled rendering of one run in _process_docx_paragraph: escape the
run text, wrap in textbf when bold, then in textit when italic. -/
def renderRun (r : DocxRun) : String :=
  let escaped_text := _escape_latex r.text
  let escaped_text :=
    if r.bold then "\\textbf\x7b" ++ escaped_text ++ "\x7d" else escaped_text
  if r.italic then "\\textit\x7b" ++ escaped_text ++ "\x7d" else escaped_text

/-- _process_docx_paragraph from src/run.py. -/
def _process_docx_paragraph (style : String) (runs : List DocxRun) : String :=
  if pyStrip (paraText runs) = "" then ""
  else
    let text := joinSep "" (runs.map renderRun)
    let style_name := pyLower style
    if containsSub style_name "heading 1" then
      "\\section\x7b" ++ text ++ "\x7d"
    else if containsSub style_name "heading 2" then
      "\\subsection\x7b" ++ text ++ "\x7d"
    else if containsSub style_name "heading 3" then
      "\\subsubsection\x7b" ++ text ++ "\x7d"
    else if containsSub style_name "list" || containsSub style_name "bullet" then
      "\\begin\x7bitemize\x7d\n\\item " ++ text ++ "\n\\end\x7bitemize\x7d"
    else text ++ "\n"

/-- Repeat a string n times (Python "l|" * num_cols). -/
def repeatStr (s : String) : Nat → String
  | 0 => ""
  | n + 1 => s ++ repeatStr s n

/-- _process_docx_table from src/run.py. -/
def _process_docx_table (numCols : Nat) (rows : List (List String)) : String :=
  let col_spec := "|" ++ repeatStr "l|" numCols
  let rowStrs := rows.map (fun row =>
    joinSep " & " (row.map (fun cell => _escape_latex (pyStrip cell)))
      ++ " \\\\ \\hline")
  let table_content := joinSep "\n" rowStrs
  "\\begin\x7btable\x7d[H]\n\\centering\n\\begin\x7btabular\x7d\x7b" ++
    col_spec ++ "\x7d\n\\hline\n" ++ table_content ++
    "\n\\end\x7btabular\x7d\n\\end\x7btable\x7d"

/-- Dispatch of parse_docx over one block. -/
def processDocxBlock : DocxBlock → String
  | .para style runs => _process_docx_paragraph style runs
  | .table numCols rows => _process_docx_table numCols rows

/-- parse_docx from src/run.py: the argument is the block sequence the
python-docx walker yields (or the underlying failure); the body joins the
non-empty rendered blocks with blank lines. -/
def parse_docx (blocks : Except String (List DocxBlock)) :
    Except String String :=
  match blocks with
  | .error e => .error ("Error parsing DOCX: " ++ e)
  | .ok bs =>
    .ok (joinSep "\n\n" ((bs.map processDocxBlock).filter (fun s => s ≠ "")))

-- ==========================
-- Markdown handling (parse_markdown)
-- ==========================

/-- The backtick character. -/
def tick : Char := Char.ofNat 96

/-- Locate the earliest closing triple backtick: split cs as
interior ++ close ++ rest where close is the first occurrence of three
consecutive backticks (the regex has re.DOTALL, so the interior may span
newlines). -/
def findCloseFence : List Char → Option (List Char × List Char)
  | [] => none
  | c :: cs =>
    if List.isPrefixOf [tick, tick, tick] (c :: cs) then
      some ([], (c :: cs).drop 3)
    else
      match findCloseFence cs with
      | some (int, rest) => some (c :: int, rest)
      | none => none

/-- One re.sub pass for the fenced-code pattern: at each position, if a
triple backtick opens and a later one closes, the whole match becomes the
lstlisting replacement and scanning resumes after it; otherwise the scan
advances one character. Fuel bounds the number of scan steps (the callers
pass the input length; running out leaves the remainder unchanged). -/
def subFence : Nat → List Char → List Char
  | 0, cs => cs
  | _ + 1, [] => []
  | f + 1, c :: cs =>
    if List.isPrefixOf [tick, tick, tick] (c :: cs) then
      match findCloseFence ((c :: cs).drop 3) with
      | some (code, rest) =>
        "\\begin\x7blstlisting\x7d\n".toList ++ code ++
          "\n\\end\x7blstlisting\x7d".toList ++ subFence f rest
      | none => c :: subFence f cs
    else c :: subFence f cs

/-- Locate the earliest closing backtick of an inline-code span: split cs as
interior ++ close ++ rest at the first backtick. -/
def findCloseTick (cs : List Char) : Option (List Char × List Char) :=
  let int := cs.takeWhile (· ≠ tick)
  let rest := cs.dropWhile (· ≠ tick)
  match rest with
  | [] => none
  | _ :: tl => some (int, tl)

/-- One re.sub pass for the inline-code pattern: a backtick, one or more
non-backtick characters, a backtick; an empty interior is not a match and
the scan advances one character. -/
def subInline : Nat → List Char → List Char
  | 0, cs => cs
  | _ + 1, [] => []
  | f + 1, c :: cs =>
    if c = tick then
      match findCloseTick cs with
      | some (int, rest) =>
        if int.isEmpty then c :: subInline f cs
        else "\\texttt\x7b".toList ++ int ++ '\x7d' :: subInline f rest
      | none => c :: subInline f cs
    else c :: subInline f cs

/-- The per-line action of re.sub on a header pattern with re.MULTILINE:
a line starting with the given marker has the marker stripped and the rest
wrapped in the sectioning command. -/
def headerLine (marker : String) (cmd : String) (l : List Char) : List Char :=
  if List.isPrefixOf marker.toList l then
    cmd.toList ++ '\x7b' :: l.drop marker.length ++ ['\x7d']
  else l

/-- One header re.sub pass over the whole text, line by line (the
replacement inserts no newline, so the pass preserves line structure). -/
def headerPass (marker cmd : String) (cs : List Char) : List Char :=
  joinC '\n' ((splitOnC '\n' cs).map (headerLine marker cmd))

/-- Locate the earliest closing double star with no intervening newline
(the pattern has no re.DOTALL, so the non-greedy interior cannot span
lines). -/
def findCloseStar2 : List Char → Option (List Char × List Char)
  | [] => none
  | c :: cs =>
    if List.isPrefixOf ['*', '*'] (c :: cs) then some ([], (c :: cs).drop 2)
    else if c = '\n' then none
    else
      match findCloseStar2 cs with
      | some (int, rest) => some (c :: int, rest)
      | none => none

/-- One re.sub pass for the bold pattern (two stars, a possibly empty
non-greedy interior without newline, two stars). -/
def subBold : Nat → List Char → List Char
  | 0, cs => cs
  | _ + 1, [] => []
  | f + 1, c :: cs =>
    if List.isPrefixOf ['*', '*'] (c :: cs) then
      match findCloseStar2 ((c :: cs).drop 2) with
      | some (int, rest) =>
        "\\textbf\x7b".toList ++ int ++ '\x7d' :: subBold f rest
      | none => c :: subBold f cs
    else c :: subBold f cs

/-- Locate the earliest closing single star with no intervening newline. -/
def findCloseStar1 : List Char → Option (List Char × List Char)
  | [] => none
  | c :: cs =>
    if c = '*' then some ([], cs)
    else if c = '\n' then none
    else
      match findCloseStar1 cs with
      | some (int, rest) => some (c :: int, rest)
      | none => none

/-- One re.sub pass for the italic pattern (a star, a possibly empty
non-greedy interior without newline, a star). -/
def subItalic : Nat → List Char → List Char
  | 0, cs => cs
  | _ + 1, [] => []
  | f + 1, c :: cs =>
    if c = '*' then
      match findCloseStar1 cs with
      | some (int, rest) =>
        "\\textit\x7b".toList ++ int ++ '\x7d' :: subItalic f rest
      | none => c :: subItalic f cs
    else c :: subItalic f cs

/-- Whether a line matches the list-item pattern: optional whitespace, a
dash, then at least one whitespace character. -/
def isDashLine (l : List Char) : Bool :=
  match l.dropWhile isPySpace with
  | '-' :: c :: _ => isPySpace c
  | _ => false

/-- re.sub removing the whole matched list-marker prefix: leading
whitespace, the dash, and the greedy whitespace run after it. -/
def dashContent (l : List Char) : List Char :=
  match l.dropWhile isPySpace with
  | '-' :: rest => rest.dropWhile isPySpace
  | _ => l

/-- The opening line the list machine emits. -/
def itemizeBeginL : List Char := "\\begin\x7bitemize\x7d".toList

/-- The closing line the list machine emits. -/
def itemizeEndL : List Char := "\\end\x7bitemize\x7d".toList

/-- The prefix of every item line the list machine emits. -/
def itemPrefixL : List Char := "\\item ".toList

/-- One step of the line-scanning list state machine of parse_markdown:
the state is the in_list flag and the processed_lines accumulator. -/
def listStep (st : Bool × List (List Char)) (line : List Char) :
    Bool × List (List Char) :=
  let (in_list, acc) := st
  if isDashLine line then
    if in_list then (true, acc ++ [itemPrefixL ++ dashContent line])
    else (true, acc ++ [itemizeBeginL, itemPrefixL ++ dashContent line])
  else
    if in_list then (false, acc ++ [itemizeEndL, line])
    else (false, acc ++ [line])

/-- The whole list pass: fold the state machine over the lines and close a
still-open list at end of input. -/
def listPass (lines : List (List Char)) : List (List Char) :=
  let (in_list, acc) := lines.foldl listStep (false, [])
  acc ++ (if in_list then [itemizeEndL] else [])

/-- How many lines of out are exactly x. -/
def countLine (x : List Char) (out : List (List Char)) : Nat :=
  (out.filter (fun l => l = x)).length

/-- How many lines of out start with the item marker. -/
def countItemLines (out : List (List Char)) : Nat :=
  (out.filter (fun l => List.isPrefixOf itemPrefixL l)).length

/-- Every itemize-begin line of the list is immediately followed by an
item line (so no emitted environment is empty). -/
def beginHasItem : List (List Char) → Bool
  | [] => true
  | l :: rest =>
    (if l = itemizeBeginL then
       match rest with
       | m :: _ => List.isPrefixOf itemPrefixL m
       | [] => false
     else true) && beginHasItem rest

/-- The line list does not end with an itemize-begin line. -/
def endsOk (acc : List (List Char)) : Bool :=
  !(acc.getLastD [] == itemizeBeginL)

/-- Transform 1 of parse_markdown: fenced code blocks. -/
def mdFencePass (cs : List Char) : List Char := subFence cs.length cs

/-- Transform 2 of parse_markdown: inline code. -/
def mdInlinePass (cs : List Char) : List Char := subInline cs.length cs

/-- Transform 3 of parse_markdown: the three header substitutions, level 1
first. -/
def mdHeaderPasses (cs : List Char) : List Char :=
  headerPass "### " "\\subsubsection"
    (headerPass "## " "\\subsection" (headerPass "# " "\\section" cs))

/-- Transform 4 of parse_markdown: bold then italic. -/
def mdBoldPass (cs : List Char) : List Char := subBold cs.length cs

/-- See mdBoldPass. -/
def mdItalicPass (cs : List Char) : List Char := subItalic cs.length cs

/-- Transform 5 of parse_markdown: the line-scanning list machine. -/
def mdListPass (cs : List Char) : List Char :=
  joinC '\n' (listPass (splitOnC '\n' cs))

/-- The transforms of parse_markdown in source order: fenced code blocks,
inline code, the three header levels, bold, italic, then the line-scanning
list machine. -/
def mdPipeline (cs : List Char) : List Char :=
  mdListPass (mdItalicPass (mdBoldPass (mdHeaderPasses
    (mdInlinePass (mdFencePass cs)))))

/-- parse_markdown from src/run.py: the argument is the result of reading
the file as text. -/
def parse_markdown (read : Except String String) : Except String String :=
  match read with
  | .error e => .error ("Error parsing Markdown: " ++ e)
  | .ok md => .ok (ofList (mdPipeline md.toList))

-- ==========================
-- Main logic (convert)
-- ==========================

/-- An input file as the parsers can observe it: its path, and the data
each reading layer would yield on it (text read for md/txt, page extraction
for pdf, block walking for docx), each wrapped in a possible failure. -/
structure InputFile where
  path : String
  textData : Except String String
  pdfData : Except String (List (Option String))
  docxData : Except String (List DocxBlock)

/-- The parser dispatch of convert from src/run.py: the extension
os.path.splitext(path)[1].lower() selects the parser, any other extension
raises the unsupported-format error. The Except result models the control
flow of the Python exceptions: an error escapes before the output write,
so a written output (the string convert returns) exists exactly when
parsing and in-memory assembly succeeded. -/
def dispatchParse (f : InputFile) : Except String String :=
  if pyLower (extOf f.path) = ".docx" then parse_docx f.docxData
  else if pyLower (extOf f.path) = ".pdf" then parse_pdf f.pdfData
  else if pyLower (extOf f.path) = ".md" then parse_markdown f.textData
  else if pyLower (extOf f.path) = ".txt" then parse_txt f.textData
  else .error ("Unsupported file type: " ++ pyLower (extOf f.path))

/-- convert assembles the parsed body with preamble and postamble; the
output write happens only on the ok path, after parsing and assembly. -/
def convert (f : InputFile) (o : Options) : Except String String :=
  (dispatchParse f).map
    (fun content =>
      _get_preamble f.path o ++ "\n\n" ++ content ++ "\n\n" ++ _get_postamble)

-- ==========================
-- Supporting lemmas
-- ==========================

lemma toList_ofList (l : List Char) : (ofList l).toList = l := rfl

lemma ofList_append (a b : List Char) : ofList (a ++ b) = ofList a ++ ofList b := rfl

lemma escapeL_append (a b : List Char) : escapeL (a ++ b) = escapeL a ++ escapeL b := by
  simp [escapeL]

lemma escCharL_ne_nil (c : Char) : escCharL c ≠ [] := by
  unfold escCharL
  split_ifs <;> simp

lemma weAux_step (f : Nat) (c : Char) (rest : List Char) :
    wellEscapedAux (f + 1) (escCharL c ++ rest) = wellEscapedAux f rest := by
  by_cases hs : isSpecial c = true
  · simp [isSpecial] at hs
    rcases hs with ((((((((h | h) | h) | h) | h) | h) | h) | h) | h) | h <;>
      (subst h; simp [escCharL, wellEscapedAux, escSeqs, List.find?, List.isPrefixOf])
  · have h : isSpecial c = false := eq_false_of_ne_true hs
    have hb : ('\\' == c) = false := by
      cases hc : ('\\' == c)
      · rfl
      · exfalso
        have hcc : c = '\\' := (beq_iff_eq.mp hc).symm
        subst hcc
        simp [isSpecial] at h
    have hcl : escCharL c = [c] := by
      simp [isSpecial] at h
      simp [escCharL, h]
    rw [hcl]
    simp [wellEscapedAux, escSeqs, List.find?, List.isPrefixOf, hb, h]

lemma length_le_escapeL (cs : List Char) : cs.length ≤ (escapeL cs).length := by
  induction cs with
  | nil => simp [escapeL]
  | cons c cs ih =>
    have h1 : escapeL (c :: cs) = escCharL c ++ escapeL cs := by simp [escapeL]
    have h2 : 1 ≤ (escCharL c).length := List.length_pos.mpr (escCharL_ne_nil c)
    rw [h1, List.length_append]
    simp only [List.length_cons]
    omega

lemma weAux_escape (cs : List Char) : ∀ f : Nat, cs.length ≤ f →
    wellEscapedAux f (escapeL cs) = true := by
  induction cs with
  | nil =>
    intro f _
    cases f <;> simp [escapeL, wellEscapedAux]
  | cons c cs ih =>
    intro f hf
    cases f with
    | zero => simp at hf
    | succ f' =>
      rw [show escapeL (c :: cs) = escCharL c ++ escapeL cs by simp [escapeL],
          weAux_step]
      refine ih f' ?_
      simp only [List.length_cons] at hf
      omega

lemma wellEscaped_escape (t : String) : wellEscaped (_escape_latex t) = true := by
  unfold wellEscaped _escape_latex
  rw [toList_ofList]
  exact weAux_escape t.toList _ (length_le_escapeL t.toList)

-- ==========================
-- Claim theorems
-- ==========================

/-- C3: the escape function is total over all strings and single-pass over
the original text: escape("") = "", every occurrence of a special character
is replaced by its command sequence (with the stated mappings for tilde,
caret and backslash) and the surrounding text is escaped independently of
it — so inserted sequences are never re-scanned — and the result always
parses as a sequence of non-special characters and whole inserted escape
sequences, i.e. no unescaped special character remains outside the inserted
sequences. -/
theorem escape_total_single_pass :
    _escape_latex "" = "" ∧
    (∀ a b : List Char, ∀ c : Char, isSpecial c = true →
      _escape_latex (ofList (a ++ c :: b)) =
        _escape_latex (ofList a) ++ ofList (escCharL c) ++ _escape_latex (ofList b)) ∧
    _escape_latex "~" = "\\textasciitilde\x7b\x7d" ∧
    _escape_latex "^" = "\\^\x7b\x7d" ∧
    _escape_latex "\\" = "\\textbackslash\x7b\x7d" ∧
    (∀ t : String, wellEscaped (_escape_latex t) = true) := by
  refine ⟨rfl, ?_, by decide, by decide, by decide, wellEscaped_escape⟩
  intro a b c _
  unfold _escape_latex
  rw [toList_ofList, toList_ofList, toList_ofList]
  rw [show (a ++ c :: b) = a ++ [c] ++ b by simp]
  rw [escapeL_append, escapeL_append, ofList_append, ofList_append]
  congr 2
  simp [escapeL]

/-- Witness for C3: the replacement equation instantiated at "a%b". -/
theorem escape_total_single_pass_witness :
    isSpecial '%' = true ∧
    _escape_latex (ofList ("a".toList ++ '%' :: "b".toList)) =
      _escape_latex (ofList "a".toList) ++ ofList (escCharL '%') ++
        _escape_latex (ofList "b".toList) :=
  ⟨by decide, escape_total_single_pass.2.1 "a".toList "b".toList '%' (by decide)⟩

-- C4 supporting lemmas

lemma getLastD_ne_nil (ext : List (List Char)) (h : ext ≠ []) (d d' : List Char) :
    ext.getLastD d = ext.getLastD d' := by
  cases ext with
  | nil => exact absurd rfl h
  | cons e es => rfl

lemma getLastD_append_ne (l ext : List (List Char)) (h : ext ≠ []) (d : List Char) :
    (l ++ ext).getLastD d = ext.getLastD d := by
  induction l generalizing d with
  | nil => rfl
  | cons a as ih =>
    calc ((a :: as) ++ ext).getLastD d = (a :: (as ++ ext)).getLastD d := rfl
      _ = (as ++ ext).getLastD a := List.getLastD_cons _ _ _
      _ = ext.getLastD a := ih a
      _ = ext.getLastD d := getLastD_ne_nil ext h a d

lemma endsOk_append (acc ext : List (List Char)) (h : ext ≠ []) :
    endsOk (acc ++ ext) = endsOk ext := by
  unfold endsOk
  rw [getLastD_append_ne acc ext h]

lemma isPrefixOf_append_self (p z : List Char) : List.isPrefixOf p (p ++ z) = true := by
  induction p with
  | nil => simp
  | cons a as ih => simp [List.isPrefixOf, ih]

lemma beginHasItem_single (l : List Char) (h : l ≠ itemizeBeginL) :
    beginHasItem [l] = true := by
  simp [beginHasItem, h]

lemma beginHasItem_pair (x y : List Char)
    (hx : x = itemizeBeginL → List.isPrefixOf itemPrefixL y = true)
    (hy : y ≠ itemizeBeginL) : beginHasItem [x, y] = true := by
  by_cases hxx : x = itemizeBeginL
  · simp [beginHasItem, hxx, hx hxx, hy]
  · simp [beginHasItem, hxx, hy]

lemma beginHasItem_append_of_endsOk (acc ext : List (List Char))
    (hend : endsOk acc = true) (hacc : beginHasItem acc = true)
    (hext : beginHasItem ext = true) :
    beginHasItem (acc ++ ext) = true := by
  induction acc with
  | nil => simpa using hext
  | cons a as ih =>
    cases as with
    | nil =>
      have ha : ¬(a = itemizeBeginL) := by
        intro hc
        rw [hc] at hend
        simp [endsOk, List.getLastD] at hend
      cases ext with
      | nil => simpa using hacc
      | cons e es =>
        have hstep : beginHasItem (a :: e :: es) =
            ((if a = itemizeBeginL then List.isPrefixOf itemPrefixL e else true) &&
              beginHasItem (e :: es)) := rfl
        show beginHasItem (a :: e :: es) = true
        rw [hstep, if_neg ha, Bool.true_and]
        exact hext
    | cons b bs =>
      have heq : beginHasItem (a :: b :: bs) =
          ((if a = itemizeBeginL then List.isPrefixOf itemPrefixL b else true) &&
            beginHasItem (b :: bs)) := rfl
      rw [heq, Bool.and_eq_true] at hacc
      have hend' : endsOk (b :: bs) = true := hend
      have ih' := ih hend' hacc.2
      have hstep : beginHasItem ((a :: b :: bs) ++ ext) =
          ((if a = itemizeBeginL then List.isPrefixOf itemPrefixL b else true) &&
            beginHasItem ((b :: bs) ++ ext)) := rfl
      rw [hstep, Bool.and_eq_true]
      exact ⟨hacc.1, ih'⟩

lemma countLine_append (x : List Char) (a b : List (List Char)) :
    countLine x (a ++ b) = countLine x a + countLine x b := by
  simp [countLine]

lemma itemLine_ne_begin (z : List Char) : itemPrefixL ++ z ≠ itemizeBeginL := by
  intro h
  simp [itemPrefixL, itemizeBeginL] at h

lemma itemLine_ne_end (z : List Char) : itemPrefixL ++ z ≠ itemizeEndL := by
  intro h
  simp [itemPrefixL, itemizeEndL] at h

lemma countLine_single_ne (x y : List Char) (h : y ≠ x) : countLine x [y] = 0 := by
  simp [countLine, h]

lemma countLine_single_eq (x : List Char) : countLine x [x] = 1 := by
  simp [countLine]

lemma listFold_inv (lines : List (List Char)) :
    itemizeBeginL ∉ lines → itemizeEndL ∉ lines →
    ∀ (st : Bool) (acc : List (List Char)),
    countLine itemizeBeginL acc = countLine itemizeEndL acc + (if st then 1 else 0) →
    beginHasItem acc = true → endsOk acc = true →
    (countLine itemizeBeginL (lines.foldl listStep (st, acc)).2 =
       countLine itemizeEndL (lines.foldl listStep (st, acc)).2 +
       (if (lines.foldl listStep (st, acc)).1 then 1 else 0)) ∧
    beginHasItem (lines.foldl listStep (st, acc)).2 = true ∧
    endsOk (lines.foldl listStep (st, acc)).2 = true := by
  induction lines with
  | nil => exact fun _ _ st acc h1 h2 h3 => ⟨h1, h2, h3⟩
  | cons l ls ih =>
    intro hB hE st acc h1 h2 h3
    rw [List.mem_cons] at hB hE
    push_neg at hB hE
    obtain ⟨hBl, hB'⟩ := hB
    obtain ⟨hEl, hE'⟩ := hE
    rw [List.foldl_cons]
    by_cases hd : isDashLine l = true
    · cases st with
      | true =>
        have hstep : listStep (true, acc) l =
            (true, acc ++ [itemPrefixL ++ dashContent l]) := by
          simp [listStep, hd]
        rw [hstep]
        refine ih hB' hE' true _ ?_ ?_ ?_
        · rw [countLine_append, countLine_append,
              countLine_single_ne _ _ (itemLine_ne_begin _),
              countLine_single_ne _ _ (itemLine_ne_end _)]
          omega
        · exact beginHasItem_append_of_endsOk _ _ h3 h2
            (beginHasItem_single _ (itemLine_ne_begin _))
        · rw [endsOk_append _ _ (by simp)]
          simp [endsOk, List.getLastD, itemLine_ne_begin]
      | false =>
        have hstep : listStep (false, acc) l =
            (true, acc ++ [itemizeBeginL, itemPrefixL ++ dashContent l]) := by
          simp [listStep, hd]
        rw [hstep]
        refine ih hB' hE' true _ ?_ ?_ ?_
        · rw [show [itemizeBeginL, itemPrefixL ++ dashContent l] =
                [itemizeBeginL] ++ [itemPrefixL ++ dashContent l] from rfl,
              ← List.append_assoc]
          rw [countLine_append, countLine_append, countLine_append, countLine_append,
              countLine_single_eq,
              countLine_single_ne _ _ (itemLine_ne_begin _),
              countLine_single_ne _ _ (itemLine_ne_end _),
              countLine_single_ne _ _ (by decide : itemizeBeginL ≠ itemizeEndL)]
          simp only [if_pos, if_neg, Bool.false_eq_true, if_false, if_true] at h1 ⊢
          omega
        · refine beginHasItem_append_of_endsOk _ _ h3 h2 ?_
          exact beginHasItem_pair _ _
            (fun _ => isPrefixOf_append_self itemPrefixL _)
            (itemLine_ne_begin _)
        · rw [endsOk_append _ _ (by simp)]
          simp [endsOk, List.getLastD_cons, List.getLastD, itemLine_ne_begin]
    · have hd' : isDashLine l = false := eq_false_of_ne_true hd
      cases st with
      | true =>
        have hstep : listStep (true, acc) l = (false, acc ++ [itemizeEndL, l]) := by
          simp [listStep, hd']
        rw [hstep]
        refine ih hB' hE' false _ ?_ ?_ ?_
        · rw [show [itemizeEndL, l] = [itemizeEndL] ++ [l] from rfl,
              ← List.append_assoc]
          rw [countLine_append, countLine_append, countLine_append, countLine_append,
              countLine_single_eq,
              countLine_single_ne _ _ (by decide : itemizeEndL ≠ itemizeBeginL),
              countLine_single_ne _ _ (fun h => hBl h.symm),
              countLine_single_ne _ _ (fun h => hEl h.symm)]
          simp only [if_pos, if_neg, Bool.false_eq_true, if_false, if_true] at h1 ⊢
          omega
        · refine beginHasItem_append_of_endsOk _ _ h3 h2 ?_
          exact beginHasItem_pair _ _
            (fun hc => absurd hc (by decide))
            (fun h => hBl h.symm)
        · rw [endsOk_append _ _ (by simp)]
          simp only [endsOk, List.getLastD_cons, List.getLastD]
          cases hgl : ([l].getLastD itemizeEndL == itemizeBeginL) with
          | false => simp [List.getLastD] at hgl ⊢; exact fun hc => hBl hc.symm
          | true =>
            exfalso
            simp [List.getLastD] at hgl
            exact hBl hgl.symm
      | false =>
        have hstep : listStep (false, acc) l = (false, acc ++ [l]) := by
          simp [listStep, hd']
        rw [hstep]
        refine ih hB' hE' false _ ?_ ?_ ?_
        · rw [countLine_append, countLine_append,
              countLine_single_ne _ _ (fun h => hBl h.symm),
              countLine_single_ne _ _ (fun h => hEl h.symm)]
          omega
        · exact beginHasItem_append_of_endsOk _ _ h3 h2
            (beginHasItem_single _ (fun h => hBl h.symm))
        · rw [endsOk_append _ _ (by simp)]
          simp [endsOk, List.getLastD]
          exact fun hc => hBl hc.symm

lemma countItemLines_append (a b : List (List Char)) :
    countItemLines (a ++ b) = countItemLines a + countItemLines b := by
  simp [countItemLines]

lemma countItemLines_single (x : List Char) :
    countItemLines [x] = if List.isPrefixOf itemPrefixL x then 1 else 0 := by
  by_cases h : List.isPrefixOf itemPrefixL x <;> simp [countItemLines, List.filter, h]

lemma countItemLines_nil : countItemLines [] = 0 := rfl

lemma listFold_items (lines : List (List Char)) :
    (∀ l ∈ lines, List.isPrefixOf itemPrefixL l = false) →
    ∀ (st : Bool) (acc : List (List Char)),
    countItemLines ((lines.foldl listStep (st, acc)).2) =
      countItemLines acc + (lines.filter (fun l => isDashLine l)).length := by
  induction lines with
  | nil => intro _ st acc; simp
  | cons l ls ih =>
    intro hI st acc
    have hIl : List.isPrefixOf itemPrefixL l = false := hI l (List.mem_cons_self _ _)
    have hI' : ∀ m ∈ ls, List.isPrefixOf itemPrefixL m = false :=
      fun m hm => hI m (List.mem_cons_of_mem _ hm)
    rw [List.foldl_cons]
    by_cases hd : isDashLine l = true
    · cases st with
      | true =>
        rw [show listStep (true, acc) l =
              (true, acc ++ [itemPrefixL ++ dashContent l]) by simp [listStep, hd]]
        rw [ih hI' true _, countItemLines_append]
        have h1 : countItemLines [itemPrefixL ++ dashContent l] = 1 := by
          rw [countItemLines_single, if_pos (isPrefixOf_append_self _ _)]
        rw [h1, List.filter_cons_of_pos (by simpa using hd), List.length_cons]
        omega
      | false =>
        rw [show listStep (false, acc) l =
              (true, acc ++ [itemizeBeginL, itemPrefixL ++ dashContent l]) by
            simp [listStep, hd]]
        rw [ih hI' true _, countItemLines_append]
        have h1 : countItemLines [itemizeBeginL, itemPrefixL ++ dashContent l] = 1 := by
          rw [show [itemizeBeginL, itemPrefixL ++ dashContent l] =
                [itemizeBeginL] ++ [itemPrefixL ++ dashContent l] from rfl,
              countItemLines_append, countItemLines_single, countItemLines_single,
              if_pos (isPrefixOf_append_self _ _),
              if_neg (by decide : ¬(List.isPrefixOf itemPrefixL itemizeBeginL = true))]
        rw [h1, List.filter_cons_of_pos (by simpa using hd), List.length_cons]
        omega
    · have hd' : isDashLine l = false := eq_false_of_ne_true hd
      have hfc : List.filter (fun m => isDashLine m) (l :: ls) =
          List.filter (fun m => isDashLine m) ls := by
        rw [List.filter_cons]
        simp [hd']
      cases st with
      | true =>
        rw [show listStep (true, acc) l = (false, acc ++ [itemizeEndL, l]) by
            simp [listStep, hd']]
        rw [ih hI' false _, countItemLines_append]
        have h1 : countItemLines [itemizeEndL, l] = 0 := by
          rw [show [itemizeEndL, l] = [itemizeEndL] ++ [l] from rfl,
              countItemLines_append, countItemLines_single, countItemLines_single,
              if_neg (by decide : ¬(List.isPrefixOf itemPrefixL itemizeEndL = true)),
              if_neg (by simp [hIl])]
        rw [h1, hfc]
        omega
      | false =>
        rw [show listStep (false, acc) l = (false, acc ++ [l]) by simp [listStep, hd']]
        rw [ih hI' false _, countItemLines_append]
        have h1 : countItemLines [l] = 0 := by
          rw [countItemLines_single, if_neg (by simp [hIl])]
        rw [h1, hfc]
        omega

/-- C4: the list state machine keeps the invariant that after each
processed line the emitted begin-itemize lines exceed the emitted
end-itemize lines by one exactly in list state and zero otherwise (for
inputs whose own lines are not the emitted marker lines); hence the final
output has equally many opened and closed itemize environments, every
opened environment is immediately followed by an item line (so is
non-empty), the item lines are in bijection with the dash-prefixed input
lines, and a dash line while in list state appends exactly one consecutive
item without opening a new environment. -/
theorem list_machine_invariant :
    ∀ lines : List (List Char),
      itemizeBeginL ∉ lines → itemizeEndL ∉ lines →
      (∀ l ∈ lines, List.isPrefixOf itemPrefixL l = false) →
      countLine itemizeBeginL (listPass lines) =
        countLine itemizeEndL (listPass lines) ∧
      beginHasItem (listPass lines) = true ∧
      countItemLines (listPass lines) =
        (lines.filter (fun l => isDashLine l)).length ∧
      (∀ n : Nat,
        countLine itemizeBeginL ((lines.take n).foldl listStep (false, [])).2 =
          countLine itemizeEndL ((lines.take n).foldl listStep (false, [])).2 +
            (if ((lines.take n).foldl listStep (false, [])).1 then 1 else 0)) ∧
      (∀ (acc : List (List Char)) (l : List Char), isDashLine l = true →
        listStep (true, acc) l = (true, acc ++ [itemPrefixL ++ dashContent l]) ∧
        listStep (false, acc) l =
          (true, acc ++ [itemizeBeginL, itemPrefixL ++ dashContent l])) := by
  intro lines hB hE hI
  have hinv := listFold_inv lines hB hE false []
    (by simp [countLine]) rfl rfl
  have hitems := listFold_items lines hI false []
  rcases hps : lines.foldl listStep (false, []) with ⟨st, acc⟩
  rw [hps] at hinv hitems
  obtain ⟨hc, hbi, hek⟩ := hinv
  have hlp : listPass lines = acc ++ (if st then [itemizeEndL] else []) := by
    unfold listPass
    rw [hps]
  refine ⟨?_, ?_, ?_, ?_, ?_⟩
  · rw [hlp]
    cases st with
    | true =>
      rw [if_pos rfl, countLine_append, countLine_append,
          countLine_single_ne _ _ (by decide : itemizeEndL ≠ itemizeBeginL),
          countLine_single_eq]
      simp at hc
      omega
    | false =>
      simpa using hc
  · rw [hlp]
    cases st with
    | true =>
      rw [if_pos rfl]
      exact beginHasItem_append_of_endsOk _ _ hek hbi
        (beginHasItem_single _ (by decide))
    | false => simpa using hbi
  · rw [hlp]
    cases st with
    | true =>
      rw [if_pos rfl, countItemLines_append]
      have h0 : countItemLines [itemizeEndL] = 0 := by decide
      rw [h0, hitems, countItemLines_nil]
      omega
    | false =>
      rw [if_neg (by simp), List.append_nil, hitems, countItemLines_nil]
      omega
  · intro n
    have hBn : itemizeBeginL ∉ lines.take n :=
      fun hm => hB (List.take_subset n lines hm)
    have hEn : itemizeEndL ∉ lines.take n :=
      fun hm => hE (List.take_subset n lines hm)
    exact (listFold_inv (lines.take n) hBn hEn false []
      (by simp [countLine]) rfl rfl).1
  · intro acc' l hd
    constructor <;> simp [listStep, hd]

/-- Witness for C4: the invariant instantiated at the three lines
"- a", "- b", "x". -/
theorem list_machine_invariant_witness :
    (itemizeBeginL ∉ ["- a".toList, "- b".toList, "x".toList] ∧
     itemizeEndL ∉ ["- a".toList, "- b".toList, "x".toList] ∧
     (∀ l ∈ ["- a".toList, "- b".toList, "x".toList],
       List.isPrefixOf itemPrefixL l = false)) ∧
    (countLine itemizeBeginL (listPass ["- a".toList, "- b".toList, "x".toList]) =
       countLine itemizeEndL (listPass ["- a".toList, "- b".toList, "x".toList]) ∧
     beginHasItem (listPass ["- a".toList, "- b".toList, "x".toList]) = true ∧
     countItemLines (listPass ["- a".toList, "- b".toList, "x".toList]) =
       (["- a".toList, "- b".toList, "x".toList].filter
         (fun l => isDashLine l)).length ∧
     (∀ n : Nat,
       countLine itemizeBeginL
           ((["- a".toList, "- b".toList, "x".toList].take n).foldl
             listStep (false, [])).2 =
         countLine itemizeEndL
             ((["- a".toList, "- b".toList, "x".toList].take n).foldl
               listStep (false, [])).2 +
           (if ((["- a".toList, "- b".toList, "x".toList].take n).foldl
               listStep (false, [])).1 then 1 else 0)) ∧
     (∀ (acc : List (List Char)) (l : List Char), isDashLine l = true →
       listStep (true, acc) l = (true, acc ++ [itemPrefixL ++ dashContent l]) ∧
       listStep (false, acc) l =
         (true, acc ++ [itemizeBeginL, itemPrefixL ++ dashContent l]))) :=
  ⟨⟨by decide, by decide, by decide⟩,
   list_machine_invariant ["- a".toList, "- b".toList, "x".toList]
     (by decide) (by decide) (by decide)⟩

-- C5 and C6 (parse_pdf)

lemma pdfFold_empty (pages : List (Option String)) :
    (∀ p ∈ pages, p = none ∨ p = some "") →
    ∀ acc : List String,
    pages.foldl
      (fun acc p => match p with
        | some t => if t ≠ "" then acc ++ [_escape_latex t] else acc
        | none => acc) acc = acc := by
  induction pages with
  | nil => intro _ acc; rfl
  | cons p ps ih =>
    intro hp acc
    rw [List.foldl_cons]
    have hp' : ∀ q ∈ ps, q = none ∨ q = some "" :=
      fun q hq => hp q (List.mem_cons_of_mem _ hq)
    rcases hp p (List.mem_cons_self _ _) with h | h <;> rw [h]
    · exact ih hp' acc
    · rw [show (match some "" with
          | some t => if t ≠ "" then acc ++ [_escape_latex t] else acc
          | none => acc) = acc by simp]
      exact ih hp' acc

lemma pdfFold_all (ts : List String) :
    (∀ t ∈ ts, t ≠ "") →
    ∀ acc : List String,
    (ts.map some).foldl
      (fun acc p => match p with
        | some t => if t ≠ "" then acc ++ [_escape_latex t] else acc
        | none => acc) acc = acc ++ ts.map _escape_latex := by
  induction ts with
  | nil => intro _ acc; simp
  | cons t ts ih =>
    intro ht acc
    rw [List.map_cons, List.foldl_cons]
    have ht' : ∀ u ∈ ts, u ≠ "" := fun u hu => ht u (List.mem_cons_of_mem _ hu)
    rw [show (match some t with
        | some u => if u ≠ "" then acc ++ [_escape_latex u] else acc
        | none => acc) = acc ++ [_escape_latex t] by
      simp [ht t (List.mem_cons_self _ _)]]
    rw [ih ht' _]
    simp

lemma reflow_append (a b : String) : reflow (a ++ b) = reflow a ++ reflow b := by
  unfold reflow
  rw [show (a ++ b).toList = a.toList ++ b.toList from rfl, List.map_append]
  rfl

lemma reflow_joinSep (l : List String) :
    reflow (joinSep "\n\n" l) = joinSep "  " (l.map reflow) := by
  induction l with
  | nil => rfl
  | cons x xs ih =>
    cases xs with
    | nil => rfl
    | cons y ys =>
      rw [show joinSep "\n\n" (x :: y :: ys) =
            x ++ "\n\n" ++ joinSep "\n\n" (y :: ys) from rfl,
          reflow_append, reflow_append, ih]
      rfl

/-- C5: a PDF in which no page yields extracted text does not fail: the
body is exactly the single warning comment and convert still succeeds,
producing the full written output document. -/
theorem pdf_no_text_warning (pages : List (Option String)) (f : InputFile)
    (o : Options)
    (hp : ∀ p ∈ pages, p = none ∨ p = some "")
    (hext : pyLower (extOf f.path) = ".pdf")
    (hdata : f.pdfData = .ok pages) :
    parse_pdf f.pdfData = .ok "% [WARNING: No text extracted from PDF]" ∧
    convert f o = .ok (_get_preamble f.path o ++ "\n\n" ++
      "% [WARNING: No text extracted from PDF]" ++ "\n\n" ++ _get_postamble) := by
  have hbody : pdfBody pages = "% [WARNING: No text extracted from PDF]" := by
    unfold pdfBody
    rw [pdfFold_empty pages hp []]
    rfl
  have hparse : parse_pdf f.pdfData = .ok "% [WARNING: No text extracted from PDF]" := by
    rw [hdata]
    show Except.ok (pdfBody pages) = _
    rw [hbody]
  refine ⟨hparse, ?_⟩
  unfold convert dispatchParse
  rw [hext, if_neg (by decide), if_pos rfl, hparse]
  rfl

/-- Witness for C5: a two-page PDF yielding None and "". -/
theorem pdf_no_text_warning_witness :
    (∀ p ∈ [none, some ""], p = none ∨ p = some "") ∧
    (parse_pdf (InputFile.mk "doc.pdf" (.ok "") (.ok [none, some ""]) (.ok [])).pdfData =
       .ok "% [WARNING: No text extracted from PDF]" ∧
     convert (InputFile.mk "doc.pdf" (.ok "") (.ok [none, some ""]) (.ok []))
         (Options.mk none none none none none) =
       .ok (_get_preamble "doc.pdf" (Options.mk none none none none none) ++ "\n\n" ++
         "% [WARNING: No text extracted from PDF]" ++ "\n\n" ++ _get_postamble)) :=
  ⟨by decide,
   pdf_no_text_warning [none, some ""]
     (InputFile.mk "doc.pdf" (.ok "") (.ok [none, some ""]) (.ok []))
     (Options.mk none none none none none)
     (by decide) (by decide) rfl⟩

/-- Counterexample for C6: two pages "a\nb" and "c" produce the body
"a b  c" — the blank-line separator between the pages is itself collapsed
by the reflow, so no blank-line paragraph boundary survives (the body
contains no newline at all). -/
theorem pdf_boundary_collapsed_cx :
    pdfBody [some "a\nb", some "c"] = "a b  c" ∧
    containsSub (pdfBody [some "a\nb", some "c"]) "\n\n" = false ∧
    containsSub (pdfBody [some "a\nb", some "c"]) "\n" = false := by
  decide

/-- C6 as amended: each page's text is escaped before any reflow and the
escaped pages are joined with a blank-line separator, but then ALL newlines
— the separator's two newlines included — are replaced by spaces, so each
inter-page paragraph boundary appears as two spaces rather than surviving
as a blank line. -/
theorem pdf_escape_before_reflow (ts : List String)
    (h1 : ts ≠ []) (h2 : ∀ t ∈ ts, t ≠ "") :
    pdfBody (ts.map some) = reflow (joinSep "\n\n" (ts.map _escape_latex)) ∧
    pdfBody (ts.map some) =
      joinSep "  " ((ts.map _escape_latex).map reflow) := by
  have hfold := pdfFold_all ts h2 []
  have hne : ts.map _escape_latex ≠ [] := by
    intro hc
    exact h1 (List.map_eq_nil_iff.mp hc)
  have hbody : pdfBody (ts.map some) =
      reflow (joinSep "\n\n" (ts.map _escape_latex)) := by
    unfold pdfBody
    rw [hfold, List.nil_append]
    rw [if_neg (by simp [List.isEmpty_iff, hne])]
  exact ⟨hbody, by rw [hbody, reflow_joinSep]⟩

/-- Witness for C6's amended theorem: pages "a\nb" and "c". -/
theorem pdf_escape_before_reflow_witness :
    (["a\nb", "c"] ≠ [] ∧ (∀ t ∈ ["a\nb", "c"], t ≠ "")) ∧
    (pdfBody (["a\nb", "c"].map some) =
       reflow (joinSep "\n\n" (["a\nb", "c"].map _escape_latex)) ∧
     pdfBody (["a\nb", "c"].map some) =
       joinSep "  " ((["a\nb", "c"].map _escape_latex).map reflow)) :=
  ⟨⟨by decide, by decide⟩,
   pdf_escape_before_reflow ["a\nb", "c"] (by decide) (by decide)⟩

-- C7 to C10 (convert level)

lemma strAppend_assoc (a b c : String) : (a ++ b) ++ c = a ++ (b ++ c) := by
  apply congrArg String.mk
  exact List.append_assoc a.data b.data c.data

lemma joinSep_mem_extract (sep : String) (l : List String) (x : String)
    (hx : x ∈ l) : ∃ a b : String, joinSep sep l = a ++ x ++ b := by
  induction l with
  | nil => exact absurd hx (List.not_mem_nil x)
  | cons y ys ih =>
    rcases List.mem_cons.mp hx with h | h
    · subst h
      cases ys with
      | nil => exact ⟨"", "", by simp [joinSep]⟩
      | cons z zs =>
        refine ⟨"", sep ++ joinSep sep (z :: zs), ?_⟩
        rw [show joinSep sep (x :: z :: zs) =
              x ++ sep ++ joinSep sep (z :: zs) from rfl]
        rw [strAppend_assoc]
        simp
    · cases ys with
      | nil => exact absurd h (List.not_mem_nil x)
      | cons z zs =>
        obtain ⟨a, b, hab⟩ := ih h
        refine ⟨y ++ sep ++ a, b, ?_⟩
        rw [show joinSep sep (y :: z :: zs) =
              y ++ sep ++ joinSep sep (z :: zs) from rfl, hab]
        simp [strAppend_assoc]

lemma date_line_mem (input_path : String) (o : Options) :
    "\\date\x7b\\today\x7d" ∈ preambleLines input_path o := by
  unfold preambleLines
  simp

/-- C7: every failing conversion — an unsupported extension or a parser
whose extraction/read step fails — yields an error wrapping the underlying
cause and produces no output document at all; an output document exists
only when parsing succeeded, and then it is exactly the fully assembled
preamble, body and postamble. -/
theorem convert_error_paths (f : InputFile) (o : Options) (e : String) :
    (pyLower (extOf f.path) ∉ [".docx", ".pdf", ".md", ".txt"] →
      convert f o = .error ("Unsupported file type: " ++ pyLower (extOf f.path))) ∧
    (pyLower (extOf f.path) = ".docx" → f.docxData = .error e →
      convert f o = .error ("Error parsing DOCX: " ++ e)) ∧
    (pyLower (extOf f.path) = ".pdf" → f.pdfData = .error e →
      convert f o = .error ("Error parsing PDF: " ++ e)) ∧
    (pyLower (extOf f.path) = ".md" → f.textData = .error e →
      convert f o = .error ("Error parsing Markdown: " ++ e)) ∧
    (pyLower (extOf f.path) = ".txt" → f.textData = .error e →
      convert f o = .error ("Error parsing TXT: " ++ e)) ∧
    (∀ doc : String, convert f o = .ok doc →
      ∃ body : String, dispatchParse f = .ok body ∧
        doc = _get_preamble f.path o ++ "\n\n" ++ body ++ "\n\n" ++ _get_postamble) := by
  refine ⟨?_, ?_, ?_, ?_, ?_, ?_⟩
  · intro h
    rw [List.mem_cons, List.mem_cons, List.mem_cons, List.mem_cons] at h
    push_neg at h
    obtain ⟨h1, h2, h3, h4, _⟩ := h
    unfold convert dispatchParse
    rw [if_neg h1, if_neg h2, if_neg h3, if_neg h4]
    rfl
  · intro hext hdata
    unfold convert dispatchParse
    rw [hext, if_pos rfl, hdata]
    rfl
  · intro hext hdata
    unfold convert dispatchParse
    rw [hext, if_neg (by decide), if_pos rfl, hdata]
    rfl
  · intro hext hdata
    unfold convert dispatchParse
    rw [hext, if_neg (by decide), if_neg (by decide), if_pos rfl, hdata]
    rfl
  · intro hext hdata
    unfold convert dispatchParse
    rw [hext, if_neg (by decide), if_neg (by decide), if_neg (by decide),
        if_pos rfl, hdata]
    rfl
  · intro doc hdoc
    unfold convert at hdoc
    cases hdp : dispatchParse f with
    | error e' =>
      rw [hdp] at hdoc
      exact absurd hdoc (by simp [Except.map])
    | ok body =>
      rw [hdp] at hdoc
      refine ⟨body, rfl, ?_⟩
      simpa [Except.map] using hdoc.symm

/-- Witness for C7: an unsupported extension and a markdown read failure,
each at a concrete input. -/
theorem convert_error_paths_witness :
    convert (InputFile.mk "file.xyz" (.ok "") (.ok []) (.ok []))
        (Options.mk none none none none none) =
      .error ("Unsupported file type: " ++ pyLower (extOf "file.xyz")) ∧
    convert (InputFile.mk "notes.md" (.error "boom") (.ok []) (.ok []))
        (Options.mk none none none none none) =
      .error ("Error parsing Markdown: " ++ "boom") :=
  ⟨(convert_error_paths (InputFile.mk "file.xyz" (.ok "") (.ok []) (.ok []))
      (Options.mk none none none none none) "unused").1 (by decide),
   (convert_error_paths (InputFile.mk "notes.md" (.error "boom") (.ok []) (.ok []))
      (Options.mk none none none none none) "boom").2.2.2.1 (by decide) rfl⟩

/-- C8: convert is deterministic — equal input path and file data with the
same options give identical output — and the date field is emitted as the
literal macro \date{\today} inside the preamble, so no time-dependent
content enters the output. -/
theorem convert_deterministic (f g : InputFile) (o : Options)
    (hpath : f.path = g.path) (htext : f.textData = g.textData)
    (hpdf : f.pdfData = g.pdfData) (hdocx : f.docxData = g.docxData) :
    convert f o = convert g o ∧
    (∃ a b : String, _get_preamble f.path o = a ++ "\\date\x7b\\today\x7d" ++ b) := by
  constructor
  · obtain ⟨fp, ft, fpd, fdd⟩ := f
    obtain ⟨gp, gt, gpd, gdd⟩ := g
    simp only at hpath htext hpdf hdocx
    subst hpath
    subst htext
    subst hpdf
    subst hdocx
    rfl
  · exact joinSep_mem_extract "\n" _ _ (date_line_mem f.path o)

/-- Witness for C8: two structurally equal inputs. -/
theorem convert_deterministic_witness :
    convert (InputFile.mk "a.txt" (.ok "x") (.ok []) (.ok []))
        (Options.mk none none none none none) =
      convert (InputFile.mk "a.txt" (.ok "x") (.ok []) (.ok []))
        (Options.mk none none none none none) ∧
    (∃ a b : String,
      _get_preamble "a.txt" (Options.mk none none none none none) =
        a ++ "\\date\x7b\\today\x7d" ++ b) :=
  convert_deterministic
    (InputFile.mk "a.txt" (.ok "x") (.ok []) (.ok []))
    (InputFile.mk "a.txt" (.ok "x") (.ok []) (.ok []))
    (Options.mk none none none none none) rfl rfl rfl rfl

set_option maxRecDepth 10000 in
/-- C9: the preamble interpolates the input file's basename into the title
without escaping: converting a file named my_file.txt yields a document
whose title argument contains the raw underscore, not the escaped form. -/
theorem title_not_escaped :
    convert (InputFile.mk "my_file.txt" (.ok "hello") (.ok []) (.ok []))
        (Options.mk none none none none none) =
      .ok (_get_preamble "my_file.txt" (Options.mk none none none none none) ++
        "\n\n" ++ _escape_latex "hello" ++ "\n\n" ++ _get_postamble) ∧
    containsSub (_get_preamble "my_file.txt" (Options.mk none none none none none))
      "\\title\x7bmy_file.txt\x7d" = true ∧
    containsSub (_get_preamble "my_file.txt" (Options.mk none none none none none))
      "\\title\x7bmy\\_file.txt\x7d" = false := by
  refine ⟨rfl, by decide, by decide⟩

/-- C10: extension dispatch lowercases before comparing, so an extension
differing from docx/pdf/md/txt only in letter case is routed to the
corresponding parser instead of the unsupported-format error. -/
theorem extension_case_insensitive (f : InputFile) (o : Options) :
    (pyLower (extOf f.path) = ".docx" →
      convert f o = (parse_docx f.docxData).map (fun content =>
        _get_preamble f.path o ++ "\n\n" ++ content ++ "\n\n" ++ _get_postamble)) ∧
    (pyLower (extOf f.path) = ".pdf" →
      convert f o = (parse_pdf f.pdfData).map (fun content =>
        _get_preamble f.path o ++ "\n\n" ++ content ++ "\n\n" ++ _get_postamble)) ∧
    (pyLower (extOf f.path) = ".md" →
      convert f o = (parse_markdown f.textData).map (fun content =>
        _get_preamble f.path o ++ "\n\n" ++ content ++ "\n\n" ++ _get_postamble)) ∧
    (pyLower (extOf f.path) = ".txt" →
      convert f o = (parse_txt f.textData).map (fun content =>
        _get_preamble f.path o ++ "\n\n" ++ content ++ "\n\n" ++ _get_postamble)) := by
  refine ⟨?_, ?_, ?_, ?_⟩
  · intro hext
    unfold convert dispatchParse
    rw [hext, if_pos rfl]
  · intro hext
    unfold convert dispatchParse
    rw [hext, if_neg (by decide), if_pos rfl]
  · intro hext
    unfold convert dispatchParse
    rw [hext, if_neg (by decide), if_neg (by decide), if_pos rfl]
  · intro hext
    unfold convert dispatchParse
    rw [hext, if_neg (by decide), if_neg (by decide), if_neg (by decide),
        if_pos rfl]

/-- Witness for C10: the uppercase extensions ".DOCX" and ".Md" are routed
to the docx and markdown parsers. -/
theorem extension_case_insensitive_witness :
    convert (InputFile.mk "A.DOCX" (.ok "") (.ok []) (.ok []))
        (Options.mk none none none none none) =
      (parse_docx (Except.ok ([] : List DocxBlock))).map (fun content =>
        _get_preamble "A.DOCX" (Options.mk none none none none none) ++
          "\n\n" ++ content ++ "\n\n" ++ _get_postamble) ∧
    convert (InputFile.mk "b.Md" (.ok "hi") (.ok []) (.ok []))
        (Options.mk none none none none none) =
      (parse_markdown (Except.ok "hi")).map (fun content =>
        _get_preamble "b.Md" (Options.mk none none none none none) ++
          "\n\n" ++ content ++ "\n\n" ++ _get_postamble) :=
  ⟨(extension_case_insensitive (InputFile.mk "A.DOCX" (.ok "") (.ok []) (.ok []))
      (Options.mk none none none none none)).1 (by decide),
   (extension_case_insensitive (InputFile.mk "b.Md" (.ok "hi") (.ok []) (.ok []))
      (Options.mk none none none none none)).2.2.1 (by decide)⟩

-- C2 (escape exactly once)

/-- Counterexample for C2: markdown prose is never escaped — the body of
the markdown input "Sale: 50% off" keeps the raw percent sign and contains
no escaped percent at all, so the text passed through the escaper zero
times, not exactly once. -/
theorem escape_once_cx :
    parse_markdown (.ok "Sale: 50% off") = .ok "Sale: 50% off" ∧
    containsSub "Sale: 50% off" "%" = true ∧
    containsSub "Sale: 50% off" "\\%" = false :=
  ⟨rfl, by decide, by decide⟩

/-- C2 as amended: txt content, pdf page texts and docx run texts each
pass through the escape function exactly once on their way into the body,
but markdown prose passes through it zero times (the percent sign of
"Sale: 50% off" stays raw in the produced body). -/
theorem escape_once_amended :
    (∀ t : String, parse_txt (.ok t) = .ok (_escape_latex t)) ∧
    (∀ ts : List String, ts ≠ [] → (∀ t ∈ ts, t ≠ "") →
      parse_pdf (.ok (ts.map some)) =
        .ok (reflow (joinSep "\n\n" (ts.map _escape_latex)))) ∧
    (∀ r : DocxRun, ∃ pre post : String,
      renderRun r = pre ++ _escape_latex r.text ++ post) ∧
    (parse_markdown (.ok "Sale: 50% off") = .ok "Sale: 50% off" ∧
      containsSub "Sale: 50% off" "\\%" = false) := by
  refine ⟨fun t => rfl, ?_, ?_, rfl, by decide⟩
  · intro ts h1 h2
    have hfold := pdfFold_all ts h2 []
    have hne : ts.map _escape_latex ≠ [] := by
      intro hc
      exact h1 (List.map_eq_nil_iff.mp hc)
    show Except.ok (pdfBody (ts.map some)) = _
    unfold pdfBody
    rw [hfold, List.nil_append, if_neg (by simp [List.isEmpty_iff, hne])]
  · intro r
    unfold renderRun
    by_cases hb : r.bold <;> by_cases hi : r.italic
    · refine ⟨"\\textit\x7b" ++ "\\textbf\x7b", "\x7d" ++ "\x7d", ?_⟩
      simp [hb, hi, strAppend_assoc]
      rw [← strAppend_assoc]
      rfl
    · exact ⟨"\\textbf\x7b", "\x7d", by simp [hb, hi]⟩
    · exact ⟨"\\textit\x7b", "\x7d", by simp [hb, hi]⟩
    · exact ⟨"", "", by simp [hb, hi]⟩

/-- Witness for C2's amended theorem: each conjunct at a concrete input. -/
theorem escape_once_amended_witness :
    parse_txt (.ok "a&b") = .ok (_escape_latex "a&b") ∧
    (["p\nq", "r"] ≠ [] ∧ (∀ t ∈ ["p\nq", "r"], t ≠ "")) ∧
    parse_pdf (.ok (["p\nq", "r"].map some)) =
      .ok (reflow (joinSep "\n\n" (["p\nq", "r"].map _escape_latex))) ∧
    (∃ pre post : String,
      renderRun (DocxRun.mk "5% off" true false) =
        pre ++ _escape_latex "5% off" ++ post) :=
  ⟨escape_once_amended.1 "a&b",
   ⟨by decide, by decide⟩,
   escape_once_amended.2.1 ["p\nq", "r"] (by decide) (by decide),
   escape_once_amended.2.2.1 (DocxRun.mk "5% off" true false)⟩

-- C1 (fenced code blocks in parse_markdown)

lemma splitOnC_ne_nil (sep : Char) (l : List Char) : splitOnC sep l ≠ [] := by
  cases l with
  | nil => simp [splitOnC]
  | cons c cs =>
    unfold splitOnC
    rcases hs : splitOnC sep cs with _ | ⟨h, t⟩
    · simp
    · by_cases hc : c = sep <;> simp [hc]

lemma splitOnC_cons (sep c : Char) (cs : List Char) :
    splitOnC sep (c :: cs) =
      (match splitOnC sep cs with
       | [] => [[c]]
       | h :: t => if c = sep then [] :: h :: t else (c :: h) :: t) := by
  rw [splitOnC]

lemma joinC_cons_cons (sep c : Char) (h : List Char) (t : List (List Char)) :
    joinC sep ((c :: h) :: t) = c :: joinC sep (h :: t) := by
  cases t <;> simp [joinC]

lemma joinC_splitOnC (sep : Char) (cs : List Char) :
    joinC sep (splitOnC sep cs) = cs := by
  induction cs with
  | nil => rfl
  | cons c cs ih =>
    rcases hs : splitOnC sep cs with _ | ⟨h, t⟩
    · exact absurd hs (splitOnC_ne_nil sep cs)
    · rw [splitOnC_cons, hs]
      rw [show (match h :: t with
            | [] => [[c]]
            | h :: t => if c = sep then [] :: h :: t else (c :: h) :: t) =
          (if c = sep then [] :: h :: t else (c :: h) :: t) from rfl]
      by_cases hc : c = sep
      · rw [if_pos hc]
        rw [show joinC sep ([] :: h :: t) = sep :: joinC sep (h :: t) from rfl]
        rw [← hs, ih, hc]
      · rw [if_neg hc, joinC_cons_cons sep c h t, ← hs, ih]

lemma splitOnC_append_cons (sep : Char) (x y : List Char) :
    splitOnC sep (x ++ sep :: y) = splitOnC sep x ++ splitOnC sep y := by
  induction x with
  | nil =>
    rcases hs : splitOnC sep y with _ | ⟨h, t⟩
    · exact absurd hs (splitOnC_ne_nil sep y)
    · rw [List.nil_append, splitOnC_cons, hs]
      rw [show (match h :: t with
            | [] => [[sep]]
            | h :: t => if sep = sep then [] :: h :: t else (sep :: h) :: t) =
          (if sep = sep then [] :: h :: t else (sep :: h) :: t) from rfl]
      rw [if_pos rfl]
      rfl
  | cons d ds ih =>
    rcases hds : splitOnC sep ds with _ | ⟨h, t⟩
    · exact absurd hds (splitOnC_ne_nil sep ds)
    · rw [List.cons_append, splitOnC_cons, ih, hds]
      rw [show ((h :: t) ++ splitOnC sep y) = h :: (t ++ splitOnC sep y) from rfl]
      rw [splitOnC_cons, hds]
      rw [show (match h :: (t ++ splitOnC sep y) with
            | [] => [[d]]
            | h :: t => if d = sep then [] :: h :: t else (d :: h) :: t) =
          (if d = sep then [] :: h :: (t ++ splitOnC sep y)
           else (d :: h) :: (t ++ splitOnC sep y)) from rfl]
      rw [show (match h :: t with
            | [] => [[d]]
            | h :: t => if d = sep then [] :: h :: t else (d :: h) :: t) =
          (if d = sep then [] :: h :: t else (d :: h) :: t) from rfl]
      by_cases hd : d = sep <;> simp [hd]

lemma splitOnC_no_sep (sep : Char) (l : List Char) (h : sep ∉ l) :
    splitOnC sep l = [l] := by
  induction l with
  | nil => rfl
  | cons c cs ih =>
    have hc : c ≠ sep := fun hc => h (hc ▸ List.mem_cons_self _ _)
    have h' : sep ∉ cs := fun hm => h (List.mem_cons_of_mem _ hm)
    rw [splitOnC_cons, ih h']
    simp [hc]

lemma isPrefixOf_cons_false (a c : Char) (p cs : List Char) (h : c ≠ a) :
    List.isPrefixOf (a :: p) (c :: cs) = false := by
  have hb : (a == c) = false := beq_eq_false_iff_ne.mpr (fun hh => h hh.symm)
  simp [List.isPrefixOf, hb]

lemma subFence_id (f : Nat) (cs : List Char) (h : tick ∉ cs) :
    subFence f cs = cs := by
  induction f generalizing cs with
  | zero => rfl
  | succ f ih =>
    cases cs with
    | nil => rfl
    | cons c cs' =>
      have hc : c ≠ tick := fun hc => h (hc ▸ List.mem_cons_self _ _)
      have h' : tick ∉ cs' := fun hm => h (List.mem_cons_of_mem _ hm)
      rw [subFence, isPrefixOf_cons_false _ _ _ _ hc]
      simp only [Bool.false_eq_true, if_false]
      rw [ih cs' h']

lemma subInline_id (f : Nat) (cs : List Char) (h : tick ∉ cs) :
    subInline f cs = cs := by
  induction f generalizing cs with
  | zero => rfl
  | succ f ih =>
    cases cs with
    | nil => rfl
    | cons c cs' =>
      have hc : c ≠ tick := fun hc => h (hc ▸ List.mem_cons_self _ _)
      have h' : tick ∉ cs' := fun hm => h (List.mem_cons_of_mem _ hm)
      rw [subInline, if_neg hc, ih cs' h']

lemma subBold_id (f : Nat) (cs : List Char) (h : '*' ∉ cs) :
    subBold f cs = cs := by
  induction f generalizing cs with
  | zero => rfl
  | succ f ih =>
    cases cs with
    | nil => rfl
    | cons c cs' =>
      have hc : c ≠ '*' := fun hc => h (hc ▸ List.mem_cons_self _ _)
      have h' : '*' ∉ cs' := fun hm => h (List.mem_cons_of_mem _ hm)
      rw [subBold, isPrefixOf_cons_false _ _ _ _ hc]
      simp only [Bool.false_eq_true, if_false]
      rw [ih cs' h']

lemma subItalic_id (f : Nat) (cs : List Char) (h : '*' ∉ cs) :
    subItalic f cs = cs := by
  induction f generalizing cs with
  | zero => rfl
  | succ f ih =>
    cases cs with
    | nil => rfl
    | cons c cs' =>
      have hc : c ≠ '*' := fun hc => h (hc ▸ List.mem_cons_self _ _)
      have h' : '*' ∉ cs' := fun hm => h (List.mem_cons_of_mem _ hm)
      rw [subItalic, if_neg hc, ih cs' h']

lemma findCloseFence_no_tick (c : List Char) (h : tick ∉ c) :
    findCloseFence (c ++ [tick, tick, tick]) = some (c, []) := by
  induction c with
  | nil =>
    rw [List.nil_append, findCloseFence]
    simp [List.isPrefixOf]
  | cons d ds ih =>
    have hd : d ≠ tick := fun hc => h (hc ▸ List.mem_cons_self _ _)
    have h' : tick ∉ ds := fun hm => h (List.mem_cons_of_mem _ hm)
    rw [List.cons_append, findCloseFence,
        isPrefixOf_cons_false _ _ _ _ hd]
    simp only [Bool.false_eq_true, if_false]
    rw [ih h']

lemma subFence_nil (f : Nat) : subFence f [] = [] := by
  cases f <;> rfl

lemma subFence_wrap (f : Nat) (c : List Char) (h : tick ∉ c) :
    subFence (f + 1) (tick :: tick :: tick :: (c ++ [tick, tick, tick])) =
      "\\begin\x7blstlisting\x7d\n".toList ++ c ++
        "\n\\end\x7blstlisting\x7d".toList := by
  rw [subFence]
  rw [if_pos (by simp [List.isPrefixOf])]
  rw [show (tick :: tick :: tick :: (c ++ [tick, tick, tick])).drop 3 =
        c ++ [tick, tick, tick] from rfl]
  rw [findCloseFence_no_tick c h]
  simp [subFence_nil]

lemma listFold_id (lines : List (List Char))
    (h : ∀ l ∈ lines, isDashLine l = false) :
    ∀ acc, lines.foldl listStep (false, acc) = (false, acc ++ lines) := by
  induction lines with
  | nil => intro acc; simp
  | cons l ls ih =>
    intro acc
    have hl : isDashLine l = false := h l (List.mem_cons_self _ _)
    have h' : ∀ m ∈ ls, isDashLine m = false :=
      fun m hm => h m (List.mem_cons_of_mem _ hm)
    rw [List.foldl_cons,
        show listStep (false, acc) l = (false, acc ++ [l]) from by
          simp [listStep, hl],
        ih h']
    simp

lemma listPass_id (lines : List (List Char))
    (h : ∀ l ∈ lines, isDashLine l = false) : listPass lines = lines := by
  unfold listPass
  rw [listFold_id lines h []]
  simp

lemma headerLine_id (m cmd : String) (l : List Char)
    (h : List.isPrefixOf m.toList l = false) : headerLine m cmd l = l := by
  unfold headerLine
  rw [h]
  simp

lemma map_id_of_mem {α : Type} (l : List α) (f : α → α)
    (h : ∀ x ∈ l, f x = x) : l.map f = l := by
  induction l with
  | nil => rfl
  | cons x xs ih =>
    rw [List.map_cons, h x (List.mem_cons_self _ _),
        ih (fun y hy => h y (List.mem_cons_of_mem _ hy))]

lemma headerPass_id (m cmd : String) (cs : List Char)
    (h : ∀ l ∈ splitOnC '\n' cs, List.isPrefixOf m.toList l = false) :
    headerPass m cmd cs = cs := by
  unfold headerPass
  rw [map_id_of_mem _ _ (fun l hl => headerLine_id m cmd l (h l hl)),
      joinC_splitOnC]

lemma mdLines_wrap (c : String) :
    splitOnC '\n' ("\\begin\x7blstlisting\x7d\n".toList ++ c.toList ++
        "\n\\end\x7blstlisting\x7d".toList) =
      "\\begin\x7blstlisting\x7d".toList ::
        (splitOnC '\n' c.toList ++ ["\\end\x7blstlisting\x7d".toList]) := by
  rw [show ("\\begin\x7blstlisting\x7d\n".toList ++ c.toList ++
        "\n\\end\x7blstlisting\x7d".toList) =
      "\\begin\x7blstlisting\x7d".toList ++ '\n' ::
        (c.toList ++ '\n' :: "\\end\x7blstlisting\x7d".toList) from by
    rw [show "\\begin\x7blstlisting\x7d\n".toList =
          "\\begin\x7blstlisting\x7d".toList ++ ['\n'] from by decide]
    simp]
  rw [splitOnC_append_cons, splitOnC_append_cons,
      show splitOnC '\n' "\\begin\x7blstlisting\x7d".toList =
        ["\\begin\x7blstlisting\x7d".toList] from by decide,
      show splitOnC '\n' "\\end\x7blstlisting\x7d".toList =
        ["\\end\x7blstlisting\x7d".toList] from by decide]
  rfl

set_option maxHeartbeats 1000000 in
/-- C1 as amended: the fenced content is substituted directly into a
lstlisting environment by the first transform — there is no placeholder
protection — so it is preserved byte-for-byte only when it contains none of
the patterns the later transforms match: no backtick, no asterisk, no line
starting with a header marker, and no dash-prefixed list line. Under those
conditions the body is exactly the lstlisting environment around the raw
content; outside them later transforms may rewrite the content (see the
counterexample, where a '#' heading inside the fence is rewritten). -/
theorem fenced_code_not_protected (c : String)
    (htick : tick ∉ c.toList)
    (hstar : '*' ∉ c.toList)
    (hlines : ∀ l ∈ splitOnC '\n' c.toList,
      List.isPrefixOf "# ".toList l = false ∧
      List.isPrefixOf "## ".toList l = false ∧
      List.isPrefixOf "### ".toList l = false ∧
      isDashLine l = false) :
    parse_markdown (.ok ("```" ++ c ++ "```")) =
      .ok ("\\begin\x7blstlisting\x7d\n" ++ c ++ "\n\\end\x7blstlisting\x7d") := by
  have hmd : ("```" ++ c ++ "```").toList =
      tick :: tick :: tick :: (c.toList ++ [tick, tick, tick]) := by
    rw [show ("```" ++ c ++ "```").toList =
          "```".toList ++ c.toList ++ "```".toList from rfl,
        show "```".toList = [tick, tick, tick] from by decide]
    simp
  have hlen : (tick :: tick :: tick :: (c.toList ++ [tick, tick, tick])).length =
      (c.toList.length + 5) + 1 := by
    simp
  have h1 : mdFencePass (("```" ++ c ++ "```").toList) =
      "\\begin\x7blstlisting\x7d\n".toList ++ c.toList ++
        "\n\\end\x7blstlisting\x7d".toList := by
    unfold mdFencePass
    rw [hmd, hlen, subFence_wrap (c.toList.length + 5) c.toList htick]
  have htA : tick ∉ ("\\begin\x7blstlisting\x7d\n".toList ++ c.toList ++
      "\n\\end\x7blstlisting\x7d".toList) := by
    intro hm
    rcases List.mem_append.mp hm with hm' | hm'
    · rcases List.mem_append.mp hm' with hm'' | hm''
      · exact absurd hm'' (by decide)
      · exact htick hm''
    · exact absurd hm' (by decide)
  have hsA : '*' ∉ ("\\begin\x7blstlisting\x7d\n".toList ++ c.toList ++
      "\n\\end\x7blstlisting\x7d".toList) := by
    intro hm
    rcases List.mem_append.mp hm with hm' | hm'
    · rcases List.mem_append.mp hm' with hm'' | hm''
      · exact absurd hm'' (by decide)
      · exact hstar hm''
    · exact absurd hm' (by decide)
  have hcond : ∀ l ∈ splitOnC '\n'
      ("\\begin\x7blstlisting\x7d\n".toList ++ c.toList ++
        "\n\\end\x7blstlisting\x7d".toList),
      List.isPrefixOf "# ".toList l = false ∧
      List.isPrefixOf "## ".toList l = false ∧
      List.isPrefixOf "### ".toList l = false ∧
      isDashLine l = false := by
    intro l hl
    rw [mdLines_wrap] at hl
    rcases List.mem_cons.mp hl with rfl | hl'
    · exact ⟨by decide, by decide, by decide, by decide⟩
    · rcases List.mem_append.mp hl' with hc | he
      · exact hlines l hc
      · rcases List.mem_singleton.mp he with rfl
        exact ⟨by decide, by decide, by decide, by decide⟩
  show Except.ok (ofList (mdPipeline (("```" ++ c ++ "```").toList))) = _
  unfold mdPipeline
  rw [h1,
      show mdInlinePass ("\\begin\x7blstlisting\x7d\n".toList ++ c.toList ++
          "\n\\end\x7blstlisting\x7d".toList) =
        ("\\begin\x7blstlisting\x7d\n".toList ++ c.toList ++
          "\n\\end\x7blstlisting\x7d".toList) from subInline_id _ _ htA]
  unfold mdHeaderPasses
  rw [headerPass_id "# " "\\section" _ (fun l hl => (hcond l hl).1),
      headerPass_id "## " "\\subsection" _ (fun l hl => (hcond l hl).2.1),
      headerPass_id "### " "\\subsubsection" _ (fun l hl => (hcond l hl).2.2.1)]
  rw [show mdBoldPass ("\\begin\x7blstlisting\x7d\n".toList ++ c.toList ++
        "\n\\end\x7blstlisting\x7d".toList) =
      ("\\begin\x7blstlisting\x7d\n".toList ++ c.toList ++
        "\n\\end\x7blstlisting\x7d".toList) from subBold_id _ _ hsA]
  rw [show mdItalicPass ("\\begin\x7blstlisting\x7d\n".toList ++ c.toList ++
        "\n\\end\x7blstlisting\x7d".toList) =
      ("\\begin\x7blstlisting\x7d\n".toList ++ c.toList ++
        "\n\\end\x7blstlisting\x7d".toList) from subItalic_id _ _ hsA]
  unfold mdListPass
  rw [listPass_id _ (fun l hl => (hcond l hl).2.2.2), joinC_splitOnC]
  rfl

/-- Witness for C1's amended theorem: a fenced two-line code block without
backticks, asterisks, header lines or dash lines is preserved verbatim. -/
theorem fenced_code_not_protected_witness :
    (tick ∉ "print(1)\nx = 2".toList ∧ '*' ∉ "print(1)\nx = 2".toList ∧
     (∀ l ∈ splitOnC '\n' "print(1)\nx = 2".toList,
       List.isPrefixOf "# ".toList l = false ∧
       List.isPrefixOf "## ".toList l = false ∧
       List.isPrefixOf "### ".toList l = false ∧
       isDashLine l = false)) ∧
    parse_markdown (.ok ("```" ++ "print(1)\nx = 2" ++ "```")) =
      .ok ("\\begin\x7blstlisting\x7d\n" ++ "print(1)\nx = 2" ++
        "\n\\end\x7blstlisting\x7d") :=
  ⟨⟨by decide, by decide, by decide⟩,
   fenced_code_not_protected "print(1)\nx = 2" (by decide) (by decide) (by decide)⟩

set_option maxRecDepth 10000 in
/-- Counterexample for C1: the fenced content "\n# hi\n" is not preserved
byte-for-byte — the later header transform rewrites the '#' line inside the
already-emitted lstlisting environment, so the rendered body no longer
contains the line "# hi". -/
theorem fenced_code_rewritten_cx :
    parse_markdown (.ok "```\n# hi\n```") =
      .ok "\\begin\x7blstlisting\x7d\n\n\\section\x7bhi\x7d\n\n\\end\x7blstlisting\x7d" ∧
    containsSub
      "\\begin\x7blstlisting\x7d\n\n\\section\x7bhi\x7d\n\n\\end\x7blstlisting\x7d"
      "# hi" = false :=
  ⟨rfl, by decide⟩

end Run
